import Mathlib

/-!
# Verification of the `assert` package's deep-equality engine

A shallow embedding of the `krhubert/assert` Go test-assertion library
(files `assert.go`, `cmdopts.go` and the unnamed snapshot parts), together
with theorems settling the specification claims about it.

The embedding works over a deep universe `GoVal` of the Go values the
library manipulates: nil interfaces, booleans, integers, strings, byte
slices, pointers, slices, arrays, maps, channels, functions, unsafe
pointers, error values and structs.  Features of Go that the claims do not
exercise are outside the modelled fragment and are noted where they are
abstracted:

* channel / unsafe-pointer identity is abstracted to nil-ness (two distinct
  live channels are not representable);
* map values are carried as a list of element values (keys are not needed
  by any claim: only length, nil-ness and pointwise equality are consulted);
* struct fields are concretely typed (an interface-typed field is modelled
  by the dynamic value it holds, with `gNil` for a nil interface field);
* floating point values are not representable.

Method sets (the custom `Equal` capability of user types) are supplied to
the interpreters as an explicit method table, mirroring how the Go code
discovers them by reflection at run time.
-/

namespace AssertGo

mutual

/-- A Go value in the fragment manipulated by the `assert` package. -/
inductive GoVal : Type where
  /-- the untyped nil interface value -/
  | gNil : GoVal
  | gBool : Bool → GoVal
  | gInt : Int → GoVal
  | gStr : String → GoVal
  /-- a `[]byte` value (always non-nil; the nil byte slice is `gSliceNil`) -/
  | gBytes : List Nat → GoVal
  /-- a nil pointer -/
  | gPtrNil : GoVal
  /-- a non-nil pointer to a value -/
  | gPtr : GoVal → GoVal
  /-- a nil slice -/
  | gSliceNil : GoVal
  /-- a non-nil (possibly empty) slice -/
  | gSlice : GVList → GoVal
  /-- a fixed-size array -/
  | gArr : GVList → GoVal
  /-- a nil map -/
  | gMapNil : GoVal
  /-- a non-nil map, carried as its list of element values -/
  | gMap : GVList → GoVal
  /-- a channel; the flag records whether it is nil -/
  | gChan : Bool → GoVal
  /-- a function value; the flag records whether it is nil -/
  | gFunc : Bool → GoVal
  /-- an unsafe.Pointer; the flag records whether it is nil -/
  | gUPtr : Bool → GoVal
  /-- a non-nil error value (as built by `errors.New`/`fmt.Errorf`:
      a pointer to a struct holding the message) -/
  | gErr : String → GoVal
  /-- a struct value: its named type and its fields in declaration order -/
  | gStruct : String → GFields → GoVal

/-- The fields of a struct value: name/value pairs in declaration order.
    Exportedness of a field is derived from its name as in Go. -/
inductive GFields : Type where
  | fnil : GFields
  | fcons : String → GoVal → GFields → GFields

/-- A list of Go values (slice/array/map elements). -/
inductive GVList : Type where
  | vnil : GVList
  | vcons : GoVal → GVList → GVList

end

open GoVal GFields GVList

/-- Model of `token.IsExported`: a name is exported when its first
    character is upper case. -/
def isExportedName (s : String) : Bool :=
  match s.data with
  | [] => false
  | c :: _ => c.isUpper

/-- Translation of `isNil` (assert.go): nil when the argument is the
    untyped nil interface, or a nil value of channel, function, map,
    pointer, unsafe-pointer, interface or slice kind; anything else is
    not nil. -/
def isNilV : GoVal → Bool
  | gNil => true
  | gPtrNil => true
  | gSliceNil => true
  | gMapNil => true
  | gChan b => b
  | gFunc b => b
  | gUPtr b => b
  | _ => false

/-- Whether the dynamic type of the value implements the `error`
    interface.  In the modelled fragment only `gErr` values do. -/
def implementsError : GoVal → Bool
  | gErr _ => true
  | _ => false

mutual

/-- Model of `reflect.DeepEqual` on the fragment.  Notable Go rules kept:
    a nil slice/map is not deeply equal to an empty one, non-nil function
    values are never deeply equal, structs compare all fields (exported or
    not) and require the same named type, pointers compare pointees, and
    custom `Equal` methods are ignored. -/
def deepEqual : GoVal → GoVal → Bool
  | gNil, gNil => true
  | gBool a, gBool b => a == b
  | gInt a, gInt b => a == b
  | gStr a, gStr b => a == b
  | gBytes a, gBytes b => a == b
  | gPtrNil, gPtrNil => true
  | gPtr a, gPtr b => deepEqual a b
  | gSliceNil, gSliceNil => true
  | gSlice a, gSlice b => deepEqualList a b
  | gArr a, gArr b => deepEqualList a b
  | gMapNil, gMapNil => true
  | gMap a, gMap b => deepEqualList a b
  | gChan a, gChan b => a == b
  | gFunc a, gFunc b => a && b
  | gUPtr a, gUPtr b => a == b
  | gErr a, gErr b => a == b
  | gStruct tn a, gStruct tn' b => tn == tn' && deepEqualFields a b
  | _, _ => false

/-- `reflect.DeepEqual` on struct fields, pairwise in order. -/
def deepEqualFields : GFields → GFields → Bool
  | fnil, fnil => true
  | fcons n v r, fcons n' v' r' => n == n' && deepEqual v v' && deepEqualFields r r'
  | _, _ => false

/-- `reflect.DeepEqual` on element lists (lengths must agree). -/
def deepEqualList : GVList → GVList → Bool
  | vnil, vnil => true
  | vcons v r, vcons v' r' => deepEqual v v' && deepEqualList r r'
  | _, _ => false

end

/-- The custom equality capability of a user type: an Equal method.
    The modelled method shapes are the two the specification discusses:
    value style (value receiver, value parameter) and pointer style
    (pointer receiver, pointer parameter).  For a pointer-style method the
    semantic decision function still receives the pointed-to struct
    values. -/
structure EqMethod where
  /-- true for a pointer receiver / pointer parameter method -/
  ptrStyle : Bool
  /-- the method's decision on the (dereferenced) receiver and argument -/
  fn : GoVal → GoVal → Bool

/-- A method table: which named struct types expose an Equal method.
    This mirrors the reflection lookups the Go code performs at run
    time. -/
def Methods := String → Option EqMethod

mutual

/-- Zero value of a value's dynamic type, as produced by
    reflect.Zero(v.Type()).  The zero of a pointer, slice or map type is
    nil; the zero of an array or struct type takes the zero of every
    element or field. -/
def zeroValOf : GoVal → GoVal
  | gNil => gNil
  | gBool _ => gBool false
  | gInt _ => gInt 0
  | gStr _ => gStr ""
  | gBytes _ => gSliceNil
  | gPtrNil => gPtrNil
  | gPtr _ => gPtrNil
  | gSliceNil => gSliceNil
  | gSlice _ => gSliceNil
  | gArr xs => gArr (zeroValList xs)
  | gMapNil => gMapNil
  | gMap _ => gMapNil
  | gChan _ => gChan true
  | gFunc _ => gFunc true
  | gUPtr _ => gUPtr true
  | gErr _ => gPtrNil
  | gStruct tn fs => gStruct tn (zeroValFields fs)

/-- Zero values of a field list, elementwise. -/
def zeroValFields : GFields → GFields
  | fnil => fnil
  | fcons n v r => fcons n (zeroValOf v) (zeroValFields r)

/-- Zero values of an element list, elementwise. -/
def zeroValList : GVList → GVList
  | vnil => vnil
  | vcons v r => vcons (zeroValOf v) (zeroValList r)

end

/-- Length of an element list. -/
def lenV : GVList → Nat
  | vnil => 0
  | vcons _ r => lenV r + 1

/-- Translation of isEmptyValue (src/unnamed/part_000, lines 47-73):
    zero length for maps, slices and strings; an array is empty when it is
    deeply equal to the zero value of its type (all elements zero); kinds
    with a plain zero (bool, the integer kinds, floats, interface,
    pointer) are empty when IsZero holds; otherwise, when the value's type
    has a suitable Equal method, the value is empty when Equal applied to
    the zero value of the type returns true; anything else is not empty.
    The Equal lookup uses the value method set, as MethodByName on a
    struct value does. -/
def isEmptyValue (M : Methods) : GoVal → Bool
  | gStr s => s.length == 0
  | gBytes bs => bs.length == 0
  | gSliceNil => true
  | gSlice xs => lenV xs == 0
  | gMapNil => true
  | gMap xs => lenV xs == 0
  | gArr xs => deepEqualList xs (zeroValList xs)
  | gBool b => !b
  | gInt n => n == 0
  | gNil => true
  | gPtrNil => true
  | gPtr _ => false
  | gErr _ => false
  | gStruct tn fs =>
    match M tn with
    | some m => if m.ptrStyle then false else m.fn (gStruct tn fs) (zeroValOf (gStruct tn fs))
    | none => false
  | gChan _ => false
  | gFunc _ => false
  | gUPtr _ => false

/-- Translation of deref (assert.go, second snapshot): strip every
    pointer indirection.  The Go code would fault on a nil pointer, but
    deref is only reached after the nil guards in equal. -/
def derefAll : GoVal → GoVal
  | gPtr v => derefAll v
  | v => v

/-- One pointer indirection removed (used to hand a pointer-style Equal
    method its pointees). -/
def stripPtr : GoVal → GoVal
  | gPtr v => v
  | v => v

/-- Model of the dynamic interface assertion
    got.(interface with an Equal(V) bool method) performed by equal, where
    V is the common static type of both arguments.  It succeeds exactly
    for a bare struct whose type has a value-style Equal method, and for a
    pointer to a struct whose type has a pointer-style Equal method; the
    returned function is the method call on the presented values. -/
def ifaceEqualFn (M : Methods) : GoVal → Option (GoVal → GoVal → Bool)
  | gStruct tn _ =>
    match M tn with
    | some m => if m.ptrStyle then none else some m.fn
    | none => none
  | gPtr (gStruct tn _) =>
    match M tn with
    | some m =>
      if m.ptrStyle then some (fun x y => m.fn (stripPtr x) (stripPtr y)) else none
    | none => none
  | _ => none

/-- Model of gv.MethodByName applied after dereferencing: the value
    method set of a struct contains only value-receiver methods, so a
    pointer-style Equal method is not found here. -/
def valueMethodFn (M : Methods) : GoVal → Option (GoVal → GoVal → Bool)
  | gStruct tn _ =>
    match M tn with
    | some m => if m.ptrStyle then none else some m.fn
    | none => none
  | _ => none

/-- Translation of equal (assert.go second snapshot, lines 660-692):
    nil handling first, then byte-slice content equality, then the
    interface assertion for an Equal method at the presented type, then
    (after dereferencing both sides) a reflective lookup of a value-method
    Equal, and finally reflect.DeepEqual on the dereferenced values.
    The unchecked byte-slice assertion on want cannot mismatch here
    because both arguments share the generic type V. -/
def equalGo (M : Methods) (got want : GoVal) : Bool :=
  if isNilV got && isNilV want then true
  else if isNilV got || isNilV want then false
  else
    match got, want with
    | gBytes g, gBytes w => g == w
    | gBytes _, _ => false
    | _, _ =>
      match ifaceEqualFn M got with
      | some fn => fn got want
      | none =>
        match valueMethodFn M (derefAll got) with
        | some fn => fn (derefAll got) (derefAll want)
        | none => deepEqual (derefAll got) (derefAll want)

/-- The resolved comparison options produced by the policy resolver
    (cmdopts.go): cmp.Exporter over all types, the FilterPath/Ignore rule
    over unexported struct fields, and the FilterPath/Ignore rule over
    struct fields whose want side is empty. -/
inductive CmpOpt : Type where
  | exporterAll : CmpOpt
  | ignoreUnexported : CmpOpt
  | ignoreEmptyFields : CmpOpt
deriving DecidableEq, BEq, Repr

/-- The option accumulator of the first snapshot of assert.go. -/
structure Equaler where
  unexported : Bool
  skipEmptyFields : Bool

/-- EqualOption configures the equality check behavior; it is an opaque
    mutator of the accumulator, modelled with explicit state passing. -/
def EqualOption := Equaler → Equaler

/-- IgnoreUnexported returns an EqualOption that ignores unexported
    fields of structs. -/
def IgnoreUnexported : EqualOption := fun o => ⟨true, o.skipEmptyFields⟩

/-- SkipEmptyFields returns an EqualOption that ignores struct fields
    that are empty. -/
def SkipEmptyFields : EqualOption := fun o => ⟨o.unexported, true⟩

/-- The option loop of equaler.apply: run every option over the
    accumulator in order. -/
def applyFold (o : Equaler) (opts : List EqualOption) : Equaler :=
  opts.foldl (fun e f => f e) o

/-- Translation of equaler.apply (assert.go, lines 25-42): fold the
    options, then emit ignoreUnexported or compareExported (the
    all-types exporter) according to the unexported flag, followed by
    ignoreEmptyFields when requested. -/
def Equaler.apply (o : Equaler) (opts : List EqualOption) : List CmpOpt :=
  let o' := applyFold o opts
  (if o'.unexported then [CmpOpt.ignoreUnexported] else [CmpOpt.exporterAll])
    ++ (if o'.skipEmptyFields then [CmpOpt.ignoreEmptyFields] else [])

/-- A struct-field step of a comparison path, carrying the data the
    FilterPath predicates inspect: the field name and the two field
    values (got first, want second) as produced by StructField.Values. -/
structure FieldStep where
  name : String
  gotVal : GoVal
  wantVal : GoVal

/-- Whether the resolved options ignore the field reached by this step:
    ignoreUnexported fires on a name that is not exported-style,
    ignoreEmptyFields fires when the want-side value is empty.  Filters
    only ever match paths whose last step is a struct field, so only
    field steps are consulted. -/
def stepIgnored (M : Methods) (opts : List CmpOpt) (s : FieldStep) : Bool :=
  (opts.contains CmpOpt.ignoreUnexported && !isExportedName s.name)
    || (opts.contains CmpOpt.ignoreEmptyFields && isEmptyValue M s.wantVal)

/-- One reported difference of cmp.Diff: the struct-field path from the
    root (index steps inside containers are not recorded) and the two
    values that differ there. -/
structure DiffEntry where
  path : List FieldStep
  gotLeaf : GoVal
  wantLeaf : GoVal

/-- The verdict of a pointer-style Equal method at a pointer-to-struct
    node, when one applies: the pointer type of a struct type with a
    pointer-style Equal method implements the Equal interface itself, so
    go-cmp calls the method instead of walking the pointees. -/
def ptrMethodVerdict (M : Methods) : GoVal → GoVal → Option Bool
  | gStruct tn fa, gStruct tn' fb =>
    if tn == tn' then
      match M tn with
      | some m =>
        if m.ptrStyle then some (m.fn (gStruct tn fa) (gStruct tn' fb)) else none
      | none => none
    else none
  | _, _ => none

mutual

/-- Model of the go-cmp traversal underlying cmp.Equal and cmp.Diff with
    the resolved options: walk both values in lock-step and collect the
    reported differences; the values are equal exactly when no difference
    is reported.  A value-style Equal method is honored at a struct node,
    a pointer-style Equal method at a pointer-to-struct node; an ignored
    struct field is neither compared nor reported.  pre is the field path
    from the root to the current node. -/
def cmpReport (M : Methods) (opts : List CmpOpt) (pre : List FieldStep) :
    GoVal → GoVal → List DiffEntry
  | gNil, gNil => []
  | gBool a, gBool b => if a == b then [] else [⟨pre, gBool a, gBool b⟩]
  | gInt a, gInt b => if a == b then [] else [⟨pre, gInt a, gInt b⟩]
  | gStr a, gStr b => if a == b then [] else [⟨pre, gStr a, gStr b⟩]
  | gBytes a, gBytes b => if a == b then [] else [⟨pre, gBytes a, gBytes b⟩]
  | gPtrNil, gPtrNil => []
  | gPtr a, gPtr b =>
    match ptrMethodVerdict M a b with
    | some r => if r then [] else [⟨pre, gPtr a, gPtr b⟩]
    | none => cmpReport M opts pre a b
  | gSliceNil, gSliceNil => []
  | gSlice a, gSlice b =>
    if lenV a == lenV b then cmpListReport M opts pre a b
    else [⟨pre, gSlice a, gSlice b⟩]
  | gArr a, gArr b =>
    if lenV a == lenV b then cmpListReport M opts pre a b
    else [⟨pre, gArr a, gArr b⟩]
  | gMapNil, gMapNil => []
  | gMap a, gMap b =>
    if lenV a == lenV b then cmpListReport M opts pre a b
    else [⟨pre, gMap a, gMap b⟩]
  | gChan a, gChan b => if a == b then [] else [⟨pre, gChan a, gChan b⟩]
  | gFunc a, gFunc b => if a && b then [] else [⟨pre, gFunc a, gFunc b⟩]
  | gUPtr a, gUPtr b => if a == b then [] else [⟨pre, gUPtr a, gUPtr b⟩]
  | gErr a, gErr b => if a == b then [] else [⟨pre, gErr a, gErr b⟩]
  | gStruct tn fa, gStruct tn' fb =>
    if tn == tn' then
      match M tn with
      | some m =>
        if m.ptrStyle then cmpFieldsReport M opts pre fa fb
        else if m.fn (gStruct tn fa) (gStruct tn' fb) then []
        else [⟨pre, gStruct tn fa, gStruct tn' fb⟩]
      | none => cmpFieldsReport M opts pre fa fb
    else [⟨pre, gStruct tn fa, gStruct tn' fb⟩]
  | x, y => [⟨pre, x, y⟩]

/-- Struct-field traversal: each pair of fields forms a step; an ignored
    step is skipped entirely, any other recurses with the step appended
    to the path.  Field lists of a shared struct type are always aligned. -/
def cmpFieldsReport (M : Methods) (opts : List CmpOpt) (pre : List FieldStep) :
    GFields → GFields → List DiffEntry
  | fnil, fnil => []
  | fcons n xv xr, fcons n' yv yr =>
    if n == n' then
      (if stepIgnored M opts ⟨n, xv, yv⟩ then []
       else cmpReport M opts (pre ++ [⟨n, xv, yv⟩]) xv yv)
        ++ cmpFieldsReport M opts pre xr yr
    else [⟨pre, gStruct "" (fcons n xv xr), gStruct "" (fcons n' yv yr)⟩]
  | xs, ys => [⟨pre, gStruct "" xs, gStruct "" ys⟩]

/-- Elementwise traversal of container elements of equal length; element
    index steps are not struct fields, so no filter applies to them. -/
def cmpListReport (M : Methods) (opts : List CmpOpt) (pre : List FieldStep) :
    GVList → GVList → List DiffEntry
  | vnil, vnil => []
  | vcons x xr, vcons y yr =>
    cmpReport M opts pre x y ++ cmpListReport M opts pre xr yr
  | _, _ => []

end

/-- The resolved options as built inside equal (assert.go, lines
    320-324): a fresh accumulator applied to the caller's options. -/
def equalResolved (opts : List EqualOption) : List CmpOpt :=
  Equaler.apply ⟨false, false⟩ opts

/-- The resolved options as built inside diffValue (assert.go, lines
    341-354): again a fresh accumulator applied to the same options. -/
def diffResolved (opts : List EqualOption) : List CmpOpt :=
  Equaler.apply ⟨false, false⟩ opts

/-- Translation of equal (assert.go first snapshot): resolve the options
    and ask cmp for equality (no difference reported). -/
def equalFn (M : Methods) (got want : GoVal) (opts : List EqualOption) : Bool :=
  (cmpReport M (equalResolved opts) [] got want).isEmpty

/-- The structured part of diffValue (assert.go first snapshot): the
    cmp.Diff report rendered on failure, computed with the options
    resolved inside diffValue.  (The optional GoStringer got/want block
    that precedes it is a verbatim user-provided dump, not part of the
    structural diff.) -/
def diffValueFn (M : Methods) (got want : GoVal) (opts : List EqualOption) :
    List DiffEntry :=
  cmpReport M (diffResolved opts) [] got want

/-- A failure message passed to t.Fatalf, in structured form: the
    constructor records which Fatalf call site fired and the data the
    format verbs would render. -/
inductive FailMsg : Type where
  /-- "expected equal\n%s" with the rendered diff -/
  | expectedEqual : List DiffEntry → FailMsg
  /-- "expected not equal, but got equal" -/
  | expectedNotEqual : FailMsg
  /-- "error is nil" -/
  | errIsNil : FailMsg
  /-- "unexpected error: %q does not match %q" -/
  | errDoesNotMatch : String → String → FailMsg
  /-- "unexpected error: %q does not contain %q" -/
  | errDoesNotContain : String → String → FailMsg
  /-- "unexpected error: %q is not %T" -/
  | errIsNot : String → FailMsg
  /-- "error.Is/As panic %s": a panic recovered from the matching
      primitives and converted into an assertion failure -/
  | recoveredPanic : String → FailMsg
  /-- "expected nil, got %v" -/
  | expectedNil : GoVal → FailMsg
  /-- "expected not nil, got nil" -/
  | expectedNotNil : FailMsg
  /-- "expected zero, got %v" -/
  | expectedZero : GoVal → FailMsg
  /-- "expected not zero, got %v" -/
  | expectedNotZero : GoVal → FailMsg

/-- The observable outcome of one assertion call: it passes, it marks the
    test failed through the reporting handle, or it panics out of the
    assertion (an unrecovered panic, aborting the test loudly). -/
inductive Outcome : Type where
  | pass : Outcome
  | fatal : FailMsg → Outcome
  | panicked : String → Outcome

/-- Go's == on the comparable fragment, used by the Zero and NotZero
    checks.  Interface comparison requires identical dynamic types and
    equal dynamic values; a typed value never equals the nil interface.
    Pointer, channel and unsafe-pointer identity is abstracted
    structurally (no claim compares two distinct live references with
    ==). -/
def goPrimEq : GoVal → GoVal → Bool
  | gNil, gNil => true
  | gBool a, gBool b => a == b
  | gInt a, gInt b => a == b
  | gStr a, gStr b => a == b
  | gPtrNil, gPtrNil => true
  | gChan a, gChan b => a == b
  | gFunc a, gFunc b => a == b
  | gUPtr a, gUPtr b => a == b
  | gErr a, gErr b => a == b
  | v, w => deepEqual v w

/-- Translation of Equal (assert.go first snapshot, lines 61-70): a got
    argument whose dynamic type implements error panics with a usage
    message; otherwise the resolved options decide equality, and on
    mismatch the test is failed with the rendered diff. -/
def EqualAssert (M : Methods) (got want : GoVal) (opts : List EqualOption) :
    Outcome :=
  if implementsError got then Outcome.panicked "use assert.Error() for errors"
  else if equalFn M got want opts then Outcome.pass
  else Outcome.fatal (FailMsg.expectedEqual (diffValueFn M got want opts))

/-- Translation of NotEqual (assert.go first snapshot, lines 74-83). -/
def NotEqualAssert (M : Methods) (got want : GoVal) (opts : List EqualOption) :
    Outcome :=
  if implementsError got then Outcome.panicked "use assert.Error() for errors"
  else if equalFn M got want opts then Outcome.fatal FailMsg.expectedNotEqual
  else Outcome.pass

/-- Translation of Nil (assert.go, lines 199-209): an error argument
    panics with a usage message; otherwise pass exactly on isNil. -/
def NilAssert (got : GoVal) : Outcome :=
  if implementsError got then Outcome.panicked "use assert.NoError() for errors"
  else if isNilV got then Outcome.pass
  else Outcome.fatal (FailMsg.expectedNil got)

/-- Translation of NotNil (assert.go, lines 211-221). -/
def NotNilAssert (got : GoVal) : Outcome :=
  if implementsError got then Outcome.panicked "use assert.Error() for errors"
  else if isNilV got then Outcome.fatal FailMsg.expectedNotNil
  else Outcome.pass

/-- Translation of Zero (assert.go, lines 183-189): compare got with the
    zero value of the static comparable type T (passed explicitly as
    zeroT, the value of new(T) dereferenced); there is no error guard in
    this function. -/
def ZeroAssert (zeroT got : GoVal) : Outcome :=
  if goPrimEq got zeroT then Outcome.pass
  else Outcome.fatal (FailMsg.expectedZero got)

/-- Translation of NotZero (assert.go, lines 191-197); no error guard
    here either. -/
def NotZeroAssert (zeroT got : GoVal) : Outcome :=
  if goPrimEq got zeroT then Outcome.fatal (FailMsg.expectedNotZero got)
  else Outcome.pass

/-- Whether the character list hay starts with the character list pre. -/
def charsStartWith : List Char → List Char → Bool
  | [], _ => true
  | _ :: _, [] => false
  | a :: asx, b :: bs => a == b && charsStartWith asx bs

/-- Whether needle occurs contiguously inside hay. -/
def charsContain (hay needle : List Char) : Bool :=
  charsStartWith needle hay ||
    match hay with
    | [] => false
    | _ :: t => charsContain t needle

/-- Model of strings.Contains: substring containment. -/
def strContains (s sub : String) : Bool :=
  charsContain s.data sub.data

/-- An abstract model of the regexp package as the ErrorContains code
    uses it: whether a pattern compiles (regexp.Compile returns no
    error), and whether a compiled pattern reMatch a subject string
    (MatchString).  Both are total functions: compilation and matching
    never panic. -/
structure RegexpEngine where
  compileOk : String → Bool
  reMatch : String → String → Bool

/-- The string-target branch of ErrorContains (assert.go, lines
    131-145): first literal substring containment of the target in the
    error message; only when that fails, compile the target as a regular
    expression and match the message; a target that does not compile is
    reported as a does-not-contain failure. -/
def errorContainsStr (eng : RegexpEngine) (errMsg target : String) : Outcome :=
  if strContains errMsg target then Outcome.pass
  else if eng.compileOk target then
    if eng.reMatch target errMsg then Outcome.pass
    else Outcome.fatal (FailMsg.errDoesNotMatch errMsg target)
  else Outcome.fatal (FailMsg.errDoesNotContain errMsg target)

/-- The three target classes of ErrorContains, as the type switch
    distinguishes them. -/
inductive ECTarget : Type where
  /-- a string target -/
  | str : String → ECTarget
  /-- an error target, matched by errors.Is -/
  | errTarget : ECTarget
  /-- any other target, matched by errors.As -/
  | otherTarget : ECTarget

/-- The result of a call to a chain-matching primitive (errors.Is or
    errors.As): either a boolean verdict or a panic carrying a message
    (for example from a malformed errors.As target). -/
def MatchResult := Except String Bool

/-- Translation of ErrorContains (assert.go, lines 117-157).  err is the
    error argument (none for a nil error, some msg for an error with the
    given message); isRes and asRes are the outcomes the chain-matching
    primitives would produce for this err/target pair.  The deferred
    recover converts a primitive's panic into a Fatalf("error.Is/As panic
    %s") failure, so no panic escapes. -/
def ErrorContainsRun (eng : RegexpEngine) (err : Option String)
    (target : ECTarget) (isRes asRes : MatchResult) : Outcome :=
  match err with
  | none => Outcome.fatal FailMsg.errIsNil
  | some msg =>
    match target with
    | ECTarget.str s => errorContainsStr eng msg s
    | ECTarget.errTarget =>
      match isRes with
      | Except.ok true => Outcome.pass
      | Except.ok false => Outcome.fatal (FailMsg.errIsNot msg)
      | Except.error p => Outcome.fatal (FailMsg.recoveredPanic p)
    | ECTarget.otherTarget =>
      match asRes with
      | Except.ok true => Outcome.pass
      | Except.ok false => Outcome.fatal (FailMsg.errIsNot msg)
      | Except.error p => Outcome.fatal (FailMsg.recoveredPanic p)

/-- Whether an outcome is an unrecovered panic escaping the assertion. -/
def isPanicOutcome : Outcome → Bool
  | Outcome.panicked _ => true
  | _ => false

mutual

/-- No non-nil function value occurs anywhere in the value.  Non-nil
    function values are the one structural shape on which
    reflect.DeepEqual is not reflexive. -/
def funcFree : GoVal → Bool
  | gFunc b => b
  | gPtr v => funcFree v
  | gSlice xs => funcFreeList xs
  | gArr xs => funcFreeList xs
  | gMap xs => funcFreeList xs
  | gStruct _ fs => funcFreeFields fs
  | _ => true

/-- funcFree over struct fields. -/
def funcFreeFields : GFields → Bool
  | fnil => true
  | fcons _ v r => funcFree v && funcFreeFields r

/-- funcFree over element lists. -/
def funcFreeList : GVList → Bool
  | vnil => true
  | vcons v r => funcFree v && funcFreeList r

end

set_option maxHeartbeats 1600000

mutual

/-- reflect.DeepEqual is reflexive on every value containing no non-nil
    function value. -/
theorem deepEqual_refl : ∀ v : GoVal, funcFree v = true → deepEqual v v = true
  | gNil, _ => rfl
  | gBool b, _ => by simp [deepEqual]
  | gInt n, _ => by simp [deepEqual]
  | gStr s, _ => by simp [deepEqual]
  | gBytes bs, _ => by simp [deepEqual]
  | gPtrNil, _ => rfl
  | gPtr v, h => by
    have := deepEqual_refl v (by simpa [funcFree] using h)
    simpa [deepEqual] using this
  | gSliceNil, _ => rfl
  | gSlice xs, h => by
    have := deepEqualList_refl xs (by simpa [funcFree] using h)
    simpa [deepEqual] using this
  | gArr xs, h => by
    have := deepEqualList_refl xs (by simpa [funcFree] using h)
    simpa [deepEqual] using this
  | gMapNil, _ => rfl
  | gMap xs, h => by
    have := deepEqualList_refl xs (by simpa [funcFree] using h)
    simpa [deepEqual] using this
  | gChan b, _ => by simp [deepEqual]
  | gFunc b, h => by
    have hb : b = true := by simpa [funcFree] using h
    simp [deepEqual, hb]
  | gUPtr b, _ => by simp [deepEqual]
  | gErr s, _ => by simp [deepEqual]
  | gStruct tn fs, h => by
    have := deepEqualFields_refl fs (by simpa [funcFree] using h)
    simp [deepEqual, this]

/-- Field lists: DeepEqual reflexivity. -/
theorem deepEqualFields_refl :
    ∀ fs : GFields, funcFreeFields fs = true → deepEqualFields fs fs = true
  | fnil, _ => rfl
  | fcons n v r, h => by
    have h1 : funcFree v = true := by
      have := h; simp [funcFreeFields] at this; exact this.1
    have h2 : funcFreeFields r = true := by
      have := h; simp [funcFreeFields] at this; exact this.2
    simp [deepEqualFields, deepEqual_refl v h1, deepEqualFields_refl r h2]

/-- Element lists: DeepEqual reflexivity. -/
theorem deepEqualList_refl :
    ∀ xs : GVList, funcFreeList xs = true → deepEqualList xs xs = true
  | vnil, _ => rfl
  | vcons v r, h => by
    have h1 : funcFree v = true := by
      have := h; simp [funcFreeList] at this; exact this.1
    have h2 : funcFreeList r = true := by
      have := h; simp [funcFreeList] at this; exact this.2
    simp [deepEqualList, deepEqual_refl v h1, deepEqualList_refl r h2]

end

/-- Stripping pointers preserves absence of non-nil function values. -/
theorem funcFree_derefAll : ∀ v : GoVal, funcFree v = true → funcFree (derefAll v) = true
  | gPtr v, h => funcFree_derefAll v (by simpa [funcFree] using h)
  | gNil, h => h
  | gBool _, h => h
  | gInt _, h => h
  | gStr _, h => h
  | gBytes _, h => h
  | gPtrNil, h => h
  | gSliceNil, h => h
  | gSlice _, h => h
  | gArr _, h => h
  | gMapNil, h => h
  | gMap _, h => h
  | gChan _, h => h
  | gFunc _, h => h
  | gUPtr _, h => h
  | gErr _, h => h
  | gStruct _ _, h => h

/-- C3, counterexample.  The claim quantifies over every value, including
    values of types with a custom Equal capability; but equal simply
    delegates to the capability, so a type whose Equal method is not
    itself reflexive (here: an Equal that always answers false, a legal
    Go method) makes equal(v, v) return false. -/
theorem c3_counterexample :
    equalGo (fun tn => if tn == "E" then some ⟨false, fun _ _ => false⟩ else none)
      (gStruct "E" fnil) (gStruct "E" fnil) = false :=
  rfl

/-- When the interface assertion for an Equal method succeeds, the
    returned function is a method call of one of the two shapes. -/
theorem ifaceEqualFn_spec (M : Methods) (v : GoVal) (fn : GoVal → GoVal → Bool)
    (h : ifaceEqualFn M v = some fn) :
    (∃ tn m, M tn = some m ∧ m.ptrStyle = false ∧ fn = m.fn) ∨
    (∃ tn m, M tn = some m ∧ m.ptrStyle = true ∧
      fn = fun x y => m.fn (stripPtr x) (stripPtr y)) := by
  cases v with
  | gStruct tn fs =>
    cases hMtn : M tn with
    | none => simp [ifaceEqualFn, hMtn] at h
    | some m =>
      cases hps : m.ptrStyle with
      | true => simp [ifaceEqualFn, hMtn, hps] at h
      | false =>
        left
        refine ⟨tn, m, hMtn, hps, ?_⟩
        simp [ifaceEqualFn, hMtn, hps] at h
        exact h.symm
  | gPtr u =>
    cases u with
    | gStruct tn fs =>
      cases hMtn : M tn with
      | none => simp [ifaceEqualFn, hMtn] at h
      | some m =>
        cases hps : m.ptrStyle with
        | false => simp [ifaceEqualFn, hMtn, hps] at h
        | true =>
          right
          refine ⟨tn, m, hMtn, hps, ?_⟩
          simp [ifaceEqualFn, hMtn, hps] at h
          exact h.symm
    | _ => simp [ifaceEqualFn] at h
  | _ => simp [ifaceEqualFn] at h

/-- When the reflective lookup of a value-method Equal succeeds, the
    returned function is the value-style method of the struct type. -/
theorem valueMethodFn_spec (M : Methods) (v : GoVal) (fn : GoVal → GoVal → Bool)
    (h : valueMethodFn M v = some fn) :
    ∃ tn m, M tn = some m ∧ m.ptrStyle = false ∧ fn = m.fn := by
  cases v with
  | gStruct tn fs =>
    cases hMtn : M tn with
    | none => simp [valueMethodFn, hMtn] at h
    | some m =>
      cases hps : m.ptrStyle with
      | true => simp [valueMethodFn, hMtn, hps] at h
      | false =>
        refine ⟨tn, m, hMtn, hps, ?_⟩
        simp [valueMethodFn, hMtn, hps] at h
        exact h.symm
  | _ => simp [valueMethodFn] at h

/-- The method-or-deep-equality tail of equal is reflexive under
    reflexive capabilities on function-free values. -/
theorem equalTail_refl (M : Methods)
    (hM : ∀ tn m, M tn = some m → ∀ w : GoVal, m.fn w w = true)
    (v : GoVal) (hv : funcFree v = true) :
    (match ifaceEqualFn M v with
     | some fn => fn v v
     | none =>
       match valueMethodFn M (derefAll v) with
       | some fn => fn (derefAll v) (derefAll v)
       | none => deepEqual (derefAll v) (derefAll v)) = true := by
  cases hif : ifaceEqualFn M v with
  | some fn =>
    simp only [hif]
    rcases ifaceEqualFn_spec M v fn hif with ⟨tn, m, hMm, _, hfn⟩ | ⟨tn, m, hMm, _, hfn⟩
    · rw [hfn]; exact hM tn m hMm v
    · rw [hfn]; exact hM tn m hMm (stripPtr v)
  | none =>
    simp only [hif]
    cases hvm : valueMethodFn M (derefAll v) with
    | some fn =>
      simp only [hvm]
      rcases valueMethodFn_spec M (derefAll v) fn hvm with ⟨tn, m, hMm, _, hfn⟩
      rw [hfn]; exact hM tn m hMm (derefAll v)
    | none =>
      simp only [hvm]
      exact deepEqual_refl _ (funcFree_derefAll v hv)

/-- C3 (amended): equal(v, v) returns true for every value v, including
    pointers, byte slices and custom-equality types, provided every Equal
    capability in scope is itself reflexive and v contains no non-nil
    function value (reflect.DeepEqual never equates non-nil functions,
    so equal(f, f) is false for a live function value f). -/
theorem c3_equal_reflexive (M : Methods) (v : GoVal)
    (hM : ∀ tn m, M tn = some m → ∀ w : GoVal, m.fn w w = true)
    (hv : funcFree v = true) : equalGo M v v = true := by
  by_cases hnil : isNilV v = true
  · simp [equalGo, hnil]
  · have hnil' : isNilV v = false := by simpa using hnil
    have htail := equalTail_refl M hM v hv
    cases v with
    | gBytes bs => simp [equalGo, hnil']
    | gNil => simp [isNilV] at hnil'
    | gPtrNil => simp [isNilV] at hnil'
    | gSliceNil => simp [isNilV] at hnil'
    | gMapNil => simp [isNilV] at hnil'
    | gBool b => simpa [equalGo, hnil'] using htail
    | gInt n => simpa [equalGo, hnil'] using htail
    | gStr s => simpa [equalGo, hnil'] using htail
    | gPtr u => simpa [equalGo, hnil'] using htail
    | gSlice xs => simpa [equalGo, hnil'] using htail
    | gArr xs => simpa [equalGo, hnil'] using htail
    | gMap xs => simpa [equalGo, hnil'] using htail
    | gChan b => simpa [equalGo, hnil'] using htail
    | gFunc b => simpa [equalGo, hnil'] using htail
    | gUPtr b => simpa [equalGo, hnil'] using htail
    | gErr s => simpa [equalGo, hnil'] using htail
    | gStruct tn fs => simpa [equalGo, hnil'] using htail

/-- C3, witness: the theorem applied at a pointer value over an empty
    method table. -/
theorem c3_witness : equalGo (fun _ => none) (gPtr (gInt 5)) (gPtr (gInt 5)) = true :=
  c3_equal_reflexive (fun _ => none) (gPtr (gInt 5))
    (fun _ _ h => by cases h) rfl

/-- C4, counterexample.  A type D with a pointer-style Equal capability
    that always answers true: presented by reference the comparator
    returns the capability's verdict (true), but presented by value the
    same two values compare false (the capability is unreachable from the
    value method set, so reflect.DeepEqual decides) — the verdict does
    not equal the capability's decision in every mix of presentation. -/
theorem c4_counterexample :
    equalGo (fun tn => if tn == "D" then some ⟨true, fun _ _ => true⟩ else none)
        (gStruct "D" (fcons "X" (gInt 1) fnil)) (gStruct "D" (fcons "X" (gInt 2) fnil))
      = false ∧
    equalGo (fun tn => if tn == "D" then some ⟨true, fun _ _ => true⟩ else none)
        (gPtr (gStruct "D" (fcons "X" (gInt 1) fnil)))
        (gPtr (gStruct "D" (fcons "X" (gInt 2) fnil)))
      = true :=
  ⟨rfl, rfl⟩

/-- C4 (amended): for a type with a custom Equal capability the
    comparator's verdict equals the capability's decision whenever the
    capability is reachable: a value-style Equal is honored both on bare
    values and on pointers (after dereferencing), and a pointer-style
    Equal is honored on pointers; but two values of a pointer-style
    Equal type presented by value fall back to reflect.DeepEqual. -/
theorem c4_capability_honored (M : Methods) (tn : String) (fa fb : GFields)
    (m : EqMethod) (hMtn : M tn = some m) :
    (m.ptrStyle = false →
      equalGo M (gStruct tn fa) (gStruct tn fb)
          = m.fn (gStruct tn fa) (gStruct tn fb) ∧
      equalGo M (gPtr (gStruct tn fa)) (gPtr (gStruct tn fb))
          = m.fn (gStruct tn fa) (gStruct tn fb)) ∧
    (m.ptrStyle = true →
      equalGo M (gPtr (gStruct tn fa)) (gPtr (gStruct tn fb))
          = m.fn (gStruct tn fa) (gStruct tn fb) ∧
      equalGo M (gStruct tn fa) (gStruct tn fb)
          = deepEqual (gStruct tn fa) (gStruct tn fb)) := by
  constructor
  · intro hps
    constructor
    · simp [equalGo, isNilV, ifaceEqualFn, hMtn, hps]
    · simp [equalGo, isNilV, ifaceEqualFn, valueMethodFn, derefAll, hMtn, hps]
  · intro hps
    constructor
    · simp [equalGo, isNilV, ifaceEqualFn, stripPtr, hMtn, hps]
    · simp [equalGo, isNilV, ifaceEqualFn, valueMethodFn, derefAll, hMtn, hps]

/-- C4, witness: the theorem applied to a concrete value-style capability
    (constant false) on concrete one-field structs, in both
    presentations. -/
theorem c4_witness :
    equalGo (fun tn => if tn == "V" then some ⟨false, fun _ _ => false⟩ else none)
        (gStruct "V" (fcons "X" (gInt 7) fnil)) (gStruct "V" (fcons "X" (gInt 7) fnil))
      = false ∧
    equalGo (fun tn => if tn == "V" then some ⟨false, fun _ _ => false⟩ else none)
        (gPtr (gStruct "V" (fcons "X" (gInt 7) fnil)))
        (gPtr (gStruct "V" (fcons "X" (gInt 7) fnil)))
      = false :=
  (c4_capability_honored
    (fun tn => if tn == "V" then some ⟨false, fun _ _ => false⟩ else none)
    "V" (fcons "X" (gInt 7) fnil) (fcons "X" (gInt 7) fnil)
    ⟨false, fun _ _ => false⟩ rfl).1 rfl

mutual

/-- Every step on the path of a reported difference is either part of the
    prefix the walk started from or a step the resolved options do not
    ignore: the walk never descends through an ignored field. -/
theorem cmpReport_path_spec (M : Methods) (opts : List CmpOpt) :
    ∀ (pre : List FieldStep) (x y : GoVal) (e : DiffEntry),
      e ∈ cmpReport M opts pre x y →
      ∀ s ∈ e.path, s ∈ pre ∨ stepIgnored M opts s = false
  | pre, gNil, y, e, he => by
    cases y <;> simp only [cmpReport] at he <;> try split at he
    all_goals
      first
        | exact absurd he (List.not_mem_nil _)
        | (intro s hs; left; rcases List.mem_singleton.mp he with rfl; exact hs)
  | pre, gBool a, y, e, he => by
    cases y <;> simp only [cmpReport] at he <;> try split at he
    all_goals
      first
        | exact absurd he (List.not_mem_nil _)
        | (intro s hs; left; rcases List.mem_singleton.mp he with rfl; exact hs)
  | pre, gInt a, y, e, he => by
    cases y <;> simp only [cmpReport] at he <;> try split at he
    all_goals
      first
        | exact absurd he (List.not_mem_nil _)
        | (intro s hs; left; rcases List.mem_singleton.mp he with rfl; exact hs)
  | pre, gStr a, y, e, he => by
    cases y <;> simp only [cmpReport] at he <;> try split at he
    all_goals
      first
        | exact absurd he (List.not_mem_nil _)
        | (intro s hs; left; rcases List.mem_singleton.mp he with rfl; exact hs)
  | pre, gBytes a, y, e, he => by
    cases y <;> simp only [cmpReport] at he <;> try split at he
    all_goals
      first
        | exact absurd he (List.not_mem_nil _)
        | (intro s hs; left; rcases List.mem_singleton.mp he with rfl; exact hs)
  | pre, gPtrNil, y, e, he => by
    cases y <;> simp only [cmpReport] at he <;> try split at he
    all_goals
      first
        | exact absurd he (List.not_mem_nil _)
        | (intro s hs; left; rcases List.mem_singleton.mp he with rfl; exact hs)
  | pre, gSliceNil, y, e, he => by
    cases y <;> simp only [cmpReport] at he <;> try split at he
    all_goals
      first
        | exact absurd he (List.not_mem_nil _)
        | (intro s hs; left; rcases List.mem_singleton.mp he with rfl; exact hs)
  | pre, gMapNil, y, e, he => by
    cases y <;> simp only [cmpReport] at he <;> try split at he
    all_goals
      first
        | exact absurd he (List.not_mem_nil _)
        | (intro s hs; left; rcases List.mem_singleton.mp he with rfl; exact hs)
  | pre, gChan a, y, e, he => by
    cases y <;> simp only [cmpReport] at he <;> try split at he
    all_goals
      first
        | exact absurd he (List.not_mem_nil _)
        | (intro s hs; left; rcases List.mem_singleton.mp he with rfl; exact hs)
  | pre, gFunc a, y, e, he => by
    cases y <;> simp only [cmpReport] at he <;> try split at he
    all_goals
      first
        | exact absurd he (List.not_mem_nil _)
        | (intro s hs; left; rcases List.mem_singleton.mp he with rfl; exact hs)
  | pre, gUPtr a, y, e, he => by
    cases y <;> simp only [cmpReport] at he <;> try split at he
    all_goals
      first
        | exact absurd he (List.not_mem_nil _)
        | (intro s hs; left; rcases List.mem_singleton.mp he with rfl; exact hs)
  | pre, gErr a, y, e, he => by
    cases y <;> simp only [cmpReport] at he <;> try split at he
    all_goals
      first
        | exact absurd he (List.not_mem_nil _)
        | (intro s hs; left; rcases List.mem_singleton.mp he with rfl; exact hs)
  | pre, gPtr a, y, e, he => by
    cases y with
    | gPtr b =>
      simp only [cmpReport] at he
      split at he
      · split at he
        · exact absurd he (List.not_mem_nil _)
        · intro s hs; left; rcases List.mem_singleton.mp he with rfl; exact hs
      · exact cmpReport_path_spec M opts pre a b e he
    | _ =>
      simp only [cmpReport] at he
      first
        | exact absurd he (List.not_mem_nil _)
        | (intro s hs; left; rcases List.mem_singleton.mp he with rfl; exact hs)
  | pre, gSlice xs, y, e, he => by
    cases y with
    | gSlice ys =>
      simp only [cmpReport] at he
      split at he
      · exact cmpListReport_path_spec M opts pre xs ys e he
      · intro s hs; left; rcases List.mem_singleton.mp he with rfl; exact hs
    | _ =>
      simp only [cmpReport] at he
      first
        | exact absurd he (List.not_mem_nil _)
        | (intro s hs; left; rcases List.mem_singleton.mp he with rfl; exact hs)
  | pre, gArr xs, y, e, he => by
    cases y with
    | gArr ys =>
      simp only [cmpReport] at he
      split at he
      · exact cmpListReport_path_spec M opts pre xs ys e he
      · intro s hs; left; rcases List.mem_singleton.mp he with rfl; exact hs
    | _ =>
      simp only [cmpReport] at he
      first
        | exact absurd he (List.not_mem_nil _)
        | (intro s hs; left; rcases List.mem_singleton.mp he with rfl; exact hs)
  | pre, gMap xs, y, e, he => by
    cases y with
    | gMap ys =>
      simp only [cmpReport] at he
      split at he
      · exact cmpListReport_path_spec M opts pre xs ys e he
      · intro s hs; left; rcases List.mem_singleton.mp he with rfl; exact hs
    | _ =>
      simp only [cmpReport] at he
      first
        | exact absurd he (List.not_mem_nil _)
        | (intro s hs; left; rcases List.mem_singleton.mp he with rfl; exact hs)
  | pre, gStruct tn fa, y, e, he => by
    cases y with
    | gStruct tn' fb =>
      simp only [cmpReport] at he
      split at he
      · split at he
        · split at he
          · exact cmpFieldsReport_path_spec M opts pre fa fb e he
          · split at he
            · exact absurd he (List.not_mem_nil _)
            · intro s hs; left; rcases List.mem_singleton.mp he with rfl; exact hs
        · exact cmpFieldsReport_path_spec M opts pre fa fb e he
      · intro s hs; left; rcases List.mem_singleton.mp he with rfl; exact hs
    | _ =>
      simp only [cmpReport] at he
      first
        | exact absurd he (List.not_mem_nil _)
        | (intro s hs; left; rcases List.mem_singleton.mp he with rfl; exact hs)

/-- Struct-field traversal: reported paths only extend through
    non-ignored steps. -/
theorem cmpFieldsReport_path_spec (M : Methods) (opts : List CmpOpt) :
    ∀ (pre : List FieldStep) (fx fy : GFields) (e : DiffEntry),
      e ∈ cmpFieldsReport M opts pre fx fy →
      ∀ s ∈ e.path, s ∈ pre ∨ stepIgnored M opts s = false
  | pre, fnil, fnil, e, he => by
    simp only [cmpFieldsReport] at he
    exact absurd he (List.not_mem_nil _)
  | pre, fnil, fcons n v r, e, he => by
    simp only [cmpFieldsReport] at he
    intro s hs; left; rcases List.mem_singleton.mp he with rfl; exact hs
  | pre, fcons n v r, fnil, e, he => by
    simp only [cmpFieldsReport] at he
    intro s hs; left; rcases List.mem_singleton.mp he with rfl; exact hs
  | pre, fcons n xv xr, fcons n' yv yr, e, he => by
    simp only [cmpFieldsReport] at he
    split at he
    · rcases List.mem_append.mp he with he1 | he2
      · split at he1
        · exact absurd he1 (List.not_mem_nil _)
        · intro s hs
          rcases cmpReport_path_spec M opts (pre ++ [⟨n, xv, yv⟩]) xv yv e he1 s hs with hin | hni
          · rcases List.mem_append.mp hin with hp | hone
            · exact Or.inl hp
            · rcases List.mem_singleton.mp hone with rfl
              rename_i hcond
              exact Or.inr (Bool.not_eq_true _ ▸ Bool.of_not_eq_true hcond)
          · exact Or.inr hni
      · exact cmpFieldsReport_path_spec M opts pre xr yr e he2
    · intro s hs; left; rcases List.mem_singleton.mp he with rfl; exact hs

/-- Element traversal: reported paths stay within the prefix or pass only
    non-ignored steps. -/
theorem cmpListReport_path_spec (M : Methods) (opts : List CmpOpt) :
    ∀ (pre : List FieldStep) (xs ys : GVList) (e : DiffEntry),
      e ∈ cmpListReport M opts pre xs ys →
      ∀ s ∈ e.path, s ∈ pre ∨ stepIgnored M opts s = false
  | pre, vnil, vnil, e, he => by
    simp only [cmpListReport] at he
    exact absurd he (List.not_mem_nil _)
  | pre, vnil, vcons v r, e, he => by
    simp only [cmpListReport] at he
    exact absurd he (List.not_mem_nil _)
  | pre, vcons v r, vnil, e, he => by
    simp only [cmpListReport] at he
    exact absurd he (List.not_mem_nil _)
  | pre, vcons x xr, vcons y yr, e, he => by
    simp only [cmpListReport] at he
    rcases List.mem_append.mp he with he1 | he2
    · exact cmpReport_path_spec M opts pre x y e he1
    · exact cmpListReport_path_spec M opts pre xr yr e he2

end

/-- Reduction lemmas for the derived Boolean equality on resolved
    options, used to evaluate List.contains in the filter predicates. -/
theorem cmpOptBeq :
    (CmpOpt.ignoreUnexported == CmpOpt.ignoreUnexported) = true ∧
    (CmpOpt.ignoreEmptyFields == CmpOpt.ignoreEmptyFields) = true ∧
    (CmpOpt.ignoreUnexported == CmpOpt.exporterAll) = false ∧
    (CmpOpt.ignoreEmptyFields == CmpOpt.exporterAll) = false ∧
    (CmpOpt.ignoreUnexported == CmpOpt.ignoreEmptyFields) = false ∧
    (CmpOpt.ignoreEmptyFields == CmpOpt.ignoreUnexported) = false :=
  ⟨rfl, rfl, rfl, rfl, rfl, rfl⟩

/-- C5: the rule set resolved inside diffValue is the same rule set equal
    resolved for the equality decision (both re-resolve the caller's
    options from a fresh accumulator, a deterministic computation), and no
    reported entry of the structural diff passes through an ignored field
    step — a field excluded from equality by a filter rule never appears
    in the rendered diff, even when its got and want values differ. -/
theorem c5_diff_same_policy_and_suppression :
    (∀ opts : List EqualOption, diffResolved opts = equalResolved opts) ∧
    (∀ (M : Methods) (got want : GoVal) (opts : List EqualOption)
        (e : DiffEntry) (s : FieldStep),
        e ∈ diffValueFn M got want opts → s ∈ e.path →
        stepIgnored M (diffResolved opts) s = false) := by
  constructor
  · intro opts; rfl
  · intro M got want opts e s he hs
    rcases cmpReport_path_spec M (diffResolved opts) [] got want e he s hs with hin | hni
    · exact absurd hin (List.not_mem_nil s)
    · exact hni

/-- C5, witness: the suppression statement applied to a concrete failed
    comparison whose diff has one entry with one step. -/
theorem c5_witness :
    stepIgnored (fun _ => none) (diffResolved []) ⟨"A", gInt 1, gInt 2⟩ = false :=
  c5_diff_same_policy_and_suppression.2 (fun _ => none)
    (gStruct "T" (fcons "A" (gInt 1) fnil)) (gStruct "T" (fcons "A" (gInt 2) fnil)) []
    ⟨[⟨"A", gInt 1, gInt 2⟩], gInt 1, gInt 2⟩ ⟨"A", gInt 1, gInt 2⟩
    (List.Mem.head _) (List.Mem.head _)

/-- C1, counterexample.  The claim asserts that without IgnoreUnexported
    a pair of struct values that differ only in an unexported field (here
    field b, with exported field A agreeing) is reported equal; but the
    default resolved policy is the all-types exporter, under which the
    unexported field is compared, so the pair compares unequal — and
    compares equal precisely when IgnoreUnexported is supplied. -/
theorem c1_counterexample :
    equalFn (fun _ => none)
        (gStruct "T" (fcons "A" (gInt 1) (fcons "b" (gInt 2) fnil)))
        (gStruct "T" (fcons "A" (gInt 1) (fcons "b" (gInt 3) fnil))) [] = false ∧
    equalFn (fun _ => none)
        (gStruct "T" (fcons "A" (gInt 1) (fcons "b" (gInt 2) fnil)))
        (gStruct "T" (fcons "A" (gInt 1) (fcons "b" (gInt 3) fnil)))
        [IgnoreUnexported] = true :=
  ⟨rfl, rfl⟩

/-- C1 (amended): without IgnoreUnexported the resolved policy ignores no
    field at all — unexported struct fields are compared like exported
    ones, so two struct values differing only in the value of an
    unexported field compare unequal; with IgnoreUnexported exactly the
    fields with non-exported-style names are ignored, and such pairs
    compare equal. -/
theorem c1_default_compares_unexported :
    (∀ (M : Methods) (s : FieldStep), stepIgnored M (equalResolved []) s = false) ∧
    (∀ (M : Methods) (s : FieldStep),
        stepIgnored M (equalResolved [IgnoreUnexported]) s = !isExportedName s.name) ∧
    (∀ (M : Methods) (tn n : String) (a b : Int), M tn = none →
        isExportedName n = false → a ≠ b →
        equalFn M (gStruct tn (fcons n (gInt a) fnil))
            (gStruct tn (fcons n (gInt b) fnil)) [] = false ∧
        equalFn M (gStruct tn (fcons n (gInt a) fnil))
            (gStruct tn (fcons n (gInt b) fnil)) [IgnoreUnexported] = true) := by
  refine ⟨fun M s => rfl, fun M s => ?_, fun M tn n a b hM hn hab => ⟨?_, ?_⟩⟩
  · simp [stepIgnored, equalResolved, Equaler.apply, applyFold, IgnoreUnexported,
      cmpOptBeq]
  · have hne : (a == b) = false := by simpa using hab
    simp [equalFn, equalResolved, Equaler.apply, applyFold, IgnoreUnexported,
      cmpReport, cmpFieldsReport, stepIgnored, hM, hn, hne, cmpOptBeq, isEmptyValue]
  · simp [equalFn, equalResolved, Equaler.apply, applyFold, IgnoreUnexported,
      cmpReport, cmpFieldsReport, stepIgnored, hM, hn, cmpOptBeq]

/-- C1, witness: the amended statement applied to the concrete struct
    type T with exported-empty name check on field b and values 2 and 3. -/
theorem c1_witness :
    equalFn (fun _ => none) (gStruct "T" (fcons "b" (gInt 2) fnil))
        (gStruct "T" (fcons "b" (gInt 3) fnil)) [] = false ∧
    equalFn (fun _ => none) (gStruct "T" (fcons "b" (gInt 2) fnil))
        (gStruct "T" (fcons "b" (gInt 3) fnil)) [IgnoreUnexported] = true :=
  c1_default_compares_unexported.2.2 (fun _ => none) "T" "b" 2 3 rfl rfl (by decide)

/-- C2, counterexample.  The claim requires a field to be excluded
    exactly when the want side is empty, with emptiness for arrays being
    zero length; the want-side array [0] has length one, so the claim
    predicts the field is compared (and the comparison fails, got being
    [5]).  isEmptyValue instead tests an array by deep equality with the
    all-zero array, so the field is skipped and the values compare equal
    under SkipEmptyFields (and unequal without it, showing they differ). -/
theorem c2_counterexample :
    equalFn (fun _ => none)
        (gStruct "U" (fcons "A" (gArr (vcons (gInt 5) vnil)) fnil))
        (gStruct "U" (fcons "A" (gArr (vcons (gInt 0) vnil)) fnil))
        [SkipEmptyFields] = true ∧
    equalFn (fun _ => none)
        (gStruct "U" (fcons "A" (gArr (vcons (gInt 5) vnil)) fnil))
        (gStruct "U" (fcons "A" (gArr (vcons (gInt 0) vnil)) fnil))
        [] = false :=
  ⟨rfl, rfl⟩

/-- C2 (amended): with SkipEmptyFields a struct field is excluded from
    the comparison exactly when isEmptyValue holds of its expected-side
    value — zero length for strings, maps and slices, deep equality with
    the all-zero array for fixed arrays, the zero value for booleans,
    numbers, interfaces and pointers, and Equal(zero value) for types
    with a value-style Equal capability — regardless of the got side; in
    particular got = (A:1, B:2) and want = (A:0, B:2) compare equal with
    the option and unequal without it. -/
theorem c2_skip_empty_is_want_empty :
    (∀ (M : Methods) (s : FieldStep),
        stepIgnored M (equalResolved [SkipEmptyFields]) s = isEmptyValue M s.wantVal) ∧
    equalFn (fun _ => none)
        (gStruct "S" (fcons "A" (gInt 1) (fcons "B" (gInt 2) fnil)))
        (gStruct "S" (fcons "A" (gInt 0) (fcons "B" (gInt 2) fnil)))
        [SkipEmptyFields] = true ∧
    equalFn (fun _ => none)
        (gStruct "S" (fcons "A" (gInt 1) (fcons "B" (gInt 2) fnil)))
        (gStruct "S" (fcons "A" (gInt 0) (fcons "B" (gInt 2) fnil)))
        [] = false := by
  refine ⟨fun M s => ?_, rfl, rfl⟩
  simp [stepIgnored, equalResolved, Equaler.apply, applyFold, SkipEmptyFields,
    cmpOptBeq]

/-- The string branch of ErrorContains never produces a panic outcome,
    whatever the regular-expression engine answers. -/
theorem errorContainsStr_no_panic (eng : RegexpEngine) (errMsg target : String) :
    isPanicOutcome (errorContainsStr eng errMsg target) = false := by
  unfold errorContainsStr
  split_ifs <;> rfl

/-- C6: with a non-nil error and a string target, literal substring
    containment is tested first and passes on its own; only when it fails
    is the target compiled as a regular expression and matched; a target
    that does not compile is reported as a does-not-contain assertion
    failure; and the check never panics. -/
theorem c6_string_target_literal_first (eng : RegexpEngine) (errMsg target : String) :
    (strContains errMsg target = true →
      errorContainsStr eng errMsg target = Outcome.pass) ∧
    (strContains errMsg target = false → eng.compileOk target = true →
      errorContainsStr eng errMsg target =
        (if eng.reMatch target errMsg then Outcome.pass
         else Outcome.fatal (FailMsg.errDoesNotMatch errMsg target))) ∧
    (strContains errMsg target = false → eng.compileOk target = false →
      errorContainsStr eng errMsg target =
        Outcome.fatal (FailMsg.errDoesNotContain errMsg target)) ∧
    isPanicOutcome (errorContainsStr eng errMsg target) = false := by
  refine ⟨fun hc => ?_, fun hc hok => ?_, fun hc hok => ?_,
    errorContainsStr_no_panic eng errMsg target⟩
  · simp [errorContainsStr, hc]
  · simp [errorContainsStr, hc, hok]
  · simp [errorContainsStr, hc, hok]

/-- C6, witness: a target that is not a valid expression (the engine
    rejects it) and is absent from the message is reported as a
    does-not-contain failure; a contained target passes. -/
theorem c6_witness :
    errorContainsStr ⟨fun _ => false, fun _ _ => false⟩ "closed socket" "[" =
      Outcome.fatal (FailMsg.errDoesNotContain "closed socket" "[") ∧
    errorContainsStr ⟨fun _ => false, fun _ _ => false⟩ "closed socket" "socket" =
      Outcome.pass :=
  ⟨(c6_string_target_literal_first ⟨fun _ => false, fun _ _ => false⟩
      "closed socket" "[").2.2.1 rfl rfl,
   (c6_string_target_literal_first ⟨fun _ => false, fun _ _ => false⟩
      "closed socket" "socket").1 rfl⟩

/-- C7: a panic raised by the chain-matching primitives inside
    ErrorContains (errors.Is for an error target, errors.As for any other
    target) is recovered and converted into an ordinary assertion failure
    carrying the panic message, and no call of ErrorContains with a
    non-nil error ever produces a panic outcome. -/
theorem c7_matching_panic_recovered (eng : RegexpEngine) (msg p q : String)
    (isRes asRes : MatchResult) :
    ErrorContainsRun eng (some msg) ECTarget.errTarget (Except.error p) asRes
      = Outcome.fatal (FailMsg.recoveredPanic p) ∧
    ErrorContainsRun eng (some msg) ECTarget.otherTarget isRes (Except.error q)
      = Outcome.fatal (FailMsg.recoveredPanic q) ∧
    (∀ (err : Option String) (tgt : ECTarget),
      isPanicOutcome (ErrorContainsRun eng err tgt isRes asRes) = false) := by
  refine ⟨rfl, rfl, fun err tgt => ?_⟩
  cases err with
  | none => rfl
  | some m =>
    cases tgt with
    | str s => exact errorContainsStr_no_panic eng m s
    | errTarget =>
      cases isRes with
      | ok b => cases b <;> rfl
      | error e => rfl
    | otherTarget =>
      cases asRes with
      | ok b => cases b <;> rfl
      | error e => rfl

/-- C8, counterexample.  Zero and NotZero carry no error guard: called
    with a non-nil error value (static type error, whose zero value is
    the nil interface) they silently perform the comparison — Zero
    reports an ordinary expected-zero failure and NotZero simply passes —
    instead of raising the loud fatal abort the claim requires. -/
theorem c8_counterexample :
    ZeroAssert gNil (gErr "boom") = Outcome.fatal (FailMsg.expectedZero (gErr "boom")) ∧
    NotZeroAssert gNil (gErr "boom") = Outcome.pass :=
  ⟨rfl, rfl⟩

/-- C8 (amended): Equal, NotEqual, Nil and NotNil do abort with an
    unrecovered panic directing the author to the error-focused
    assertions whenever the got argument's dynamic type implements error;
    Zero and NotZero have no such guard and never panic — they perform
    the zero comparison silently. -/
theorem c8_error_guard (M : Methods) (got want zeroT : GoVal)
    (opts : List EqualOption) (h : implementsError got = true) :
    EqualAssert M got want opts = Outcome.panicked "use assert.Error() for errors" ∧
    NotEqualAssert M got want opts = Outcome.panicked "use assert.Error() for errors" ∧
    NilAssert got = Outcome.panicked "use assert.NoError() for errors" ∧
    NotNilAssert got = Outcome.panicked "use assert.Error() for errors" ∧
    isPanicOutcome (ZeroAssert zeroT got) = false ∧
    isPanicOutcome (NotZeroAssert zeroT got) = false := by
  refine ⟨?_, ?_, ?_, ?_, ?_, ?_⟩
  · simp [EqualAssert, h]
  · simp [NotEqualAssert, h]
  · simp [NilAssert, h]
  · simp [NotNilAssert, h]
  · unfold ZeroAssert; split <;> rfl
  · unfold NotZeroAssert; split <;> rfl

/-- C8, witness: the amended statement applied to a concrete error
    value. -/
theorem c8_witness :
    EqualAssert (fun _ => none) (gErr "x") (gErr "x") []
      = Outcome.panicked "use assert.Error() for errors" ∧
    NotEqualAssert (fun _ => none) (gErr "x") (gErr "x") []
      = Outcome.panicked "use assert.Error() for errors" ∧
    NilAssert (gErr "x") = Outcome.panicked "use assert.NoError() for errors" ∧
    NotNilAssert (gErr "x") = Outcome.panicked "use assert.Error() for errors" ∧
    isPanicOutcome (ZeroAssert gNil (gErr "x")) = false ∧
    isPanicOutcome (NotZeroAssert gNil (gErr "x")) = false :=
  c8_error_guard (fun _ => none) (gErr "x") (gErr "x") gNil [] rfl

/-- Folding the published options over the accumulator is invariant under
    permutation: both published options only raise one Boolean flag each,
    so their actions commute. -/
theorem applyFold_perm {l1 l2 : List EqualOption} (hp : l1.Perm l2)
    (hpub : ∀ o ∈ l1, o = IgnoreUnexported ∨ o = SkipEmptyFields) :
    ∀ e : Equaler, applyFold e l1 = applyFold e l2 := by
  induction hp with
  | nil => intro e; rfl
  | cons x h ih =>
    intro e
    have hx : ∀ o ∈ _, _ := fun o ho => hpub o (List.mem_cons_of_mem x ho)
    simpa [applyFold] using ih hx (x e)
  | swap x y l =>
    intro e
    have hx : x = IgnoreUnexported ∨ x = SkipEmptyFields :=
      hpub x (List.mem_cons_of_mem y (List.mem_cons_self x l))
    have hy : y = IgnoreUnexported ∨ y = SkipEmptyFields :=
      hpub y (List.mem_cons_self y (x :: l))
    have hxy : x (y e) = y (x e) := by
      rcases hx with rfl | rfl <;> rcases hy with rfl | rfl <;> rfl
    simp [applyFold, hxy]
  | trans h1 h2 ih1 ih2 =>
    intro e
    have hmem : ∀ o ∈ _, _ := fun o ho => hpub o (h1.mem_iff.mpr ho)
    exact (ih1 hpub e).trans (ih2 hmem e)

/-- C9: resolving the same option list is deterministic and
    order-independent — for any two permutations of a list built from the
    published options, the resolved rule lists are identical, and so is
    every comparison outcome and rendered diff; resolution starts from a
    fresh accumulator on every call, so nothing persists between
    resolutions. -/
theorem c9_resolution_order_independent (opts1 opts2 : List EqualOption)
    (hpub : ∀ o ∈ opts1, o = IgnoreUnexported ∨ o = SkipEmptyFields)
    (hperm : opts1.Perm opts2) :
    equalResolved opts1 = equalResolved opts2 ∧
    diffResolved opts1 = diffResolved opts2 ∧
    (∀ (M : Methods) (got want : GoVal),
      equalFn M got want opts1 = equalFn M got want opts2 ∧
      diffValueFn M got want opts1 = diffValueFn M got want opts2) := by
  have hfold := applyFold_perm hperm hpub ⟨false, false⟩
  have hres : equalResolved opts1 = equalResolved opts2 := by
    simp [equalResolved, Equaler.apply, hfold]
  refine ⟨hres, hres, fun M got want => ⟨?_, ?_⟩⟩
  · simp [equalFn, hres]
  · simp [diffValueFn, diffResolved, equalResolved] at hres ⊢
    simp [hres]

/-- C9, witness: the two published options supplied in either order
    resolve to the same rule list. -/
theorem c9_witness :
    equalResolved [IgnoreUnexported, SkipEmptyFields]
      = equalResolved [SkipEmptyFields, IgnoreUnexported] :=
  (c9_resolution_order_independent
    [IgnoreUnexported, SkipEmptyFields] [SkipEmptyFields, IgnoreUnexported]
    (by
      intro o ho
      rcases List.mem_cons.mp ho with rfl | ho1
      · exact Or.inl rfl
      · rcases List.mem_cons.mp ho1 with rfl | ho2
        · exact Or.inr rfl
        · exact absurd ho2 (List.not_mem_nil o))
    (List.Perm.swap SkipEmptyFields IgnoreUnexported [])).1

/-- The set of values the claim calls nil, written from the claim's own
    enumeration for the refinement comparison: the untyped nil interface,
    or a nil value of channel, function, map, pointer, unsafe-pointer,
    interface or slice kind (a nil interface value inside an interface is
    again the untyped nil). -/
def claimNilValue : GoVal → Bool
  | gNil => true
  | gChan b => b
  | gFunc b => b
  | gMapNil => true
  | gMap _ => false
  | gPtrNil => true
  | gPtr _ => false
  | gUPtr b => b
  | gSliceNil => true
  | gSlice _ => false
  | _ => false

/-- C10, counterexample.  A non-nil error value is not in the nil set, so
    the claim requires Nil to report an expected-nil failure and NotNil to
    pass; instead both panic with a usage message, because the error guard
    runs before the nil test. -/
theorem c10_counterexample :
    NilAssert (gErr "boom") = Outcome.panicked "use assert.NoError() for errors" ∧
    NotNilAssert (gErr "boom") = Outcome.panicked "use assert.Error() for errors" :=
  ⟨rfl, rfl⟩

/-- C10 (amended): for every argument whose dynamic type does not
    implement error, Nil passes exactly on the claim's nil set (untyped
    nil, or a nil channel, function, map, pointer, unsafe pointer or
    slice), reports an expected-nil failure on everything else, and
    NotNil behaves complementarily; arguments implementing error panic
    instead (see the error-guard claim). -/
theorem c10_nil_characterization (got : GoVal) (h : implementsError got = false) :
    (NilAssert got = Outcome.pass ↔ claimNilValue got = true) ∧
    (claimNilValue got = false →
      NilAssert got = Outcome.fatal (FailMsg.expectedNil got)) ∧
    (NotNilAssert got = Outcome.pass ↔ claimNilValue got = false) ∧
    (claimNilValue got = true →
      NotNilAssert got = Outcome.fatal FailMsg.expectedNotNil) := by
  have hcn : claimNilValue got = isNilV got := by
    cases got <;> rfl
  refine ⟨?_, ?_, ?_, ?_⟩
  · rw [hcn]
    cases hnil : isNilV got <;> simp [NilAssert, h, hnil]
  · rw [hcn]
    intro hnil
    simp [NilAssert, h, hnil]
  · rw [hcn]
    cases hnil : isNilV got <;> simp [NotNilAssert, h, hnil]
  · rw [hcn]
    intro hnil
    simp [NotNilAssert, h, hnil]

/-- C10, witness: the characterization applied to the integer zero,
    which is not nil and does not implement error. -/
theorem c10_witness :
    NilAssert (gInt 0) = Outcome.fatal (FailMsg.expectedNil (gInt 0)) ∧
    NotNilAssert (gInt 0) = Outcome.pass :=
  ⟨(c10_nil_characterization (gInt 0) rfl).2.1 rfl,
   (c10_nil_characterization (gInt 0) rfl).2.2.1.mpr rfl⟩

end AssertGo
